import Mathlib

/-!
Verification of the Clean-City detection-to-plan-to-analytics pipeline.

The development shallowly embeds the pure core of the repository:
`tools/cleanup_planner_tool.py` (plan_cleanup and its helpers),
`tools/report_generator_tool.py` (the per-category grouping and sorting steps
of the three renderers), and `tools/history_tool.py` (query_events,
get_hotspots, mark_cleaned over the SQLite `events` table, modelled as a list
of rows).

Modelling conventions:
* Machine floats that only flow through unexamined fields (`score`, bbox
  coordinates, latitude/longitude) are modelled as rationals; none of the
  verified properties inspects their arithmetic.
* Timestamps are `datetime.now().isoformat()` strings; for rows produced by
  a single store all timestamps share one fixed-width ISO-8601 format, on
  which SQLite's BINARY text comparison agrees with chronological order, so
  an instant is modelled as a natural number and `timestamp >= cutoff` as
  `≤` on naturals.  The `timedelta(days=d)` subtraction becomes `now - d`
  with one model time unit per day (truncated at zero, as every instant is
  nonnegative).
* The `detections_json` column is inserted verbatim and never consulted by
  any query, so it is not carried in the row model.
* Calls to external AI services (`llm_client.generate_text`, the Gemini
  SDK) are modelled as explicit oracle arguments; a raised exception is an
  `Except.error` value.
-/

namespace CleanCity

/-- `Detection` from `trash_model.py`: `bbox` `[x1, y1, x2, y2]` in pixels,
`label` an open string vocabulary, `score` a confidence in `[0, 1]`. -/
structure Detection where
  bbox : List Rat
  label : String
  score : Rat
deriving DecidableEq

/-- The three severity tiers produced by `plan_cleanup` (the code uses the
strings `"low"`, `"medium"`, `"high"`). -/
inductive Severity where
  | low
  | medium
  | high
deriving DecidableEq

/-- The result dictionary of `plan_cleanup` (cleanup_planner_tool.py). -/
structure Plan where
  severity : Severity
  recommended_volunteers : Nat
  estimated_time_minutes : Nat
  equipment_needed : List String
  urgency_days : Nat
  environmental_impact : String
  action_summary : String
deriving DecidableEq

/-- `severity.upper()` as used in the action-summary template. -/
def severityUpper : Severity → String
  | .low => "LOW"
  | .medium => "MEDIUM"
  | .high => "HIGH"

/-- The `impact_descriptions` dictionary of `plan_cleanup`
(cleanup_planner_tool.py lines 81-85): one canned text per severity. -/
def impactDescriptions : Severity → String
  | .high => "Significant environmental concern. Risk of wildlife harm, water contamination, and community health issues. Immediate action recommended."
  | .medium => "Moderate environmental impact. Potential for wildlife interaction and visual pollution. Timely cleanup will prevent escalation."
  | .low => "Minor environmental impact. Early intervention will maintain area cleanliness and prevent accumulation."

/-- `set(d["label"] for d in detections)` (cleanup_planner_tool.py line 51):
the distinct labels of a detection list.  `List.dedup` keeps one occurrence
of each label, so its length is the size of the Python set. -/
def categoriesOf (detections : List Detection) : List String :=
  (detections.map Detection.label).dedup

/-- Python string comparison on lists of characters: lexicographic by code
point. -/
def charListLe : List Char → List Char → Bool
  | [], _ => true
  | _ :: _, [] => false
  | a :: as, b :: bs =>
    if a.toNat < b.toNat then true
    else if b.toNat < a.toNat then false
    else charListLe as bs

/-- Python `s1 <= s2` on strings: lexicographic by code point. -/
def strLe (a b : String) : Bool :=
  charListLe a.data b.data

/-- `_generate_action_summary` (cleanup_planner_tool.py lines 106-134): the
deterministic template.  `sorted(categories)[:3]` sorts the distinct labels
by code-point order and keeps the first three. -/
def generateActionSummary (severity : Severity) (volunteers timeMinutes count : Nat)
    (categories : List String) : String :=
  let sortedCats := List.insertionSort (fun a b : String => strLe a b = true) categories
  let categoryList := String.intercalate ", " (sortedCats.take 3)
  let categoryList :=
    if 3 < categories.length then
      categoryList ++ " and " ++ toString (categories.length - 3) ++ " other types"
    else categoryList
  "**Cleanup Plan - " ++ severityUpper severity ++ " Priority**\n\nDetected "
    ++ toString count ++ " trash items including " ++ categoryList
    ++ ".\n\n**Recommended Resources:**\n- " ++ toString volunteers
    ++ " volunteer(s)\n- Approximately " ++ toString timeMinutes
    ++ " minutes\n- Standard cleanup equipment\n\n**Next Steps:**\n1. Gather volunteers and equipment\n2. Coordinate cleanup date/time\n3. Execute cleanup operation\n4. Dispose of collected waste properly\n5. Document completion for tracking\n"

/-- The early-return dictionary of `plan_cleanup` for an empty detection
list (cleanup_planner_tool.py lines 37-46). -/
def emptyPlan : Plan where
  severity := .low
  recommended_volunteers := 0
  estimated_time_minutes := 0
  equipment_needed := []
  urgency_days := 0
  environmental_impact := "No trash detected - area appears clean."
  action_summary := "No cleanup action needed at this time."

/-- The rule-based part of `plan_cleanup` (cleanup_planner_tool.py lines
37-97), i.e. the `use_llm=False` result.  Python `//` on nonnegative
integers is `Nat` division. -/
def planCleanup (detections : List Detection) : Plan :=
  if detections.isEmpty then emptyPlan
  else
    let count := detections.length
    let categories := categoriesOf detections
    let tier : Severity × Nat × Nat × Nat :=
      if 15 ≤ count ∨ 6 ≤ categories.length then
        (.high, 1, 4 + count / 10, 90 + count * 3)
      else if 7 ≤ count ∨ 4 ≤ categories.length then
        (.medium, 3, 2 + count / 8, 45 + count * 2)
      else
        (.low, 7, 1 + count / 5, 20 + count * 2)
    let severity := tier.1
    let urgencyDays := tier.2.1
    let volunteers := tier.2.2.1
    let timeEstimate := tier.2.2.2
    let equipment := ["Heavy-duty trash bags", "Gloves", "Grabber tools"]
    let equipment :=
      if "glass_bottle" ∈ categories then
        equipment ++ ["Safety goggles", "Puncture-resistant bags"]
      else equipment
    let equipment :=
      if 10 < count then equipment ++ ["Wheeled collection bin"] else equipment
    { severity := severity
      recommended_volunteers := volunteers
      estimated_time_minutes := timeEstimate
      equipment_needed := equipment
      urgency_days := urgencyDays
      environmental_impact := impactDescriptions severity
      action_summary := generateActionSummary severity volunteers timeEstimate count categories }

/-- `_enhance_with_llm` (cleanup_planner_tool.py lines 137-253).  The two
external calls are oracle arguments; a raised exception is `Except.error`.
When `GEMINI_API_KEY` is set, the Gemini branch builds its context string by
reading `plan['equipment']` (line 175) — a key `plan_cleanup` never sets
(the dictionary key is `"equipment_needed"`), so the branch raises
`KeyError` inside its `try` block before any network call and is swallowed
by the broad `except`; the branch therefore always falls through to the
fallback `llm_client.generate_text` call, which is modelled here.  On a
raised exception from that call the function returns
`plan["action_summary"]` (line 253). -/
def enhanceWithLLM {ε : Type} (plan : Plan) (geminiApiKey : Option String)
    (generateText : Except ε String) : String :=
  let geminiResult : Option String :=
    match geminiApiKey with
    | none => none
    | some _ => none
  match geminiResult with
  | some text => text
  | none =>
    match generateText with
    | .ok enhanced => enhanced
    | .error _ => plan.action_summary

/-- `plan_cleanup` with the `use_llm` flag (cleanup_planner_tool.py lines
12-103): the empty-list early return bypasses enhancement; otherwise
`use_llm=True` replaces only `action_summary` by `_enhance_with_llm`. -/
def planCleanupLLM {ε : Type} (detections : List Detection) (useLlm : Bool)
    (geminiApiKey : Option String) (generateText : Except ε String) : Plan :=
  if detections.isEmpty then emptyPlan
  else
    let plan := planCleanup detections
    if useLlm then
      { plan with action_summary := enhanceWithLLM plan geminiApiKey generateText }
    else plan

/-- A detection with the given label (bbox and score are irrelevant to every
verified property). -/
def mkDet (label : String) : Detection where
  bbox := [0, 0, 1, 1]
  label := label
  score := 1 / 2

/-- `n` detections all carrying the same label. -/
def replicateDets (n : Nat) (label : String) : List Detection :=
  List.replicate n (mkDet label)

/-!
### Report renderers (report_generator_tool.py)

All three renderers build the same `category_counts` dictionary with the
loop `category_counts[label] = category_counts.get(label, 0) + 1`; a Python
dict keeps keys in first-insertion order, and each key occurs once.
-/

/-- One step of the counting loop: increment the (unique) entry for `l`, or
append a fresh `(l, 1)` entry at the end. -/
def insertCount : List (String × Nat) → String → List (String × Nat)
  | [], l => [(l, 1)]
  | (k, n) :: rest, l =>
    if k = l then (k, n + 1) :: rest else (k, n) :: insertCount rest l

/-- The `category_counts` dictionary as an ordered association list
(report_generator_tool.py lines 66-69, 136-139, 202-205). -/
def categoryCounts (detections : List Detection) : List (String × Nat) :=
  detections.foldl (fun acc d => insertCount acc d.label) []

/-- Alphabetical order on breakdown entries: Python's
`sorted(category_counts.items())` compares the `(label, count)` tuples,
which — the labels being distinct dict keys — never reaches the counts, so
it orders entries by code-point order of the labels. -/
def labelAlphaLe (a b : String × Nat) : Prop :=
  charListLe a.1.data b.1.data = true

instance : DecidableRel labelAlphaLe := fun a b =>
  inferInstanceAs (Decidable (charListLe a.1.data b.1.data = true))

/-- Count-descending order on breakdown entries: Python's
`sorted(..., key=lambda x: x[1], reverse=True)`. -/
def byCountDesc (a b : String × Nat) : Prop :=
  b.2 ≤ a.2

instance : DecidableRel byCountDesc := fun a b =>
  inferInstanceAs (Decidable (b.2 ≤ a.2))

/-- The per-category breakdown of `_generate_email_report`
(report_generator_tool.py lines 71-74): `sorted(category_counts.items())`.
Each entry becomes one bullet line of the email body. -/
def emailBreakdown (detections : List Detection) : List (String × Nat) :=
  List.insertionSort labelAlphaLe (categoryCounts detections)

/-- The per-category breakdown of `_generate_markdown_report`
(report_generator_tool.py lines 156-157):
`sorted(category_counts.items(), key=lambda x: x[1], reverse=True)`.
Each entry becomes one bullet line of the items-breakdown section. -/
def markdownBreakdown (detections : List Detection) : List (String × Nat) :=
  List.insertionSort byCountDesc (categoryCounts detections)

/-- The per-category breakdown of `_generate_plain_report`
(report_generator_tool.py lines 207-209): `sorted(category_counts.items())`
— alphabetical, exactly as in the email renderer.  Each entry becomes one
line under "Items by Category:". -/
def plainBreakdown (detections : List Detection) : List (String × Nat) :=
  List.insertionSort labelAlphaLe (categoryCounts detections)

/-!
### Event store (history_tool.py)

The SQLite `events` table is modelled as a list of rows in insertion order.
-/

/-- One row of the `events` table.  `detections_json` is inserted verbatim
and never consulted by any query, so it is not carried here; `created_at`
is likewise never read. -/
structure Event where
  id : Nat
  timestamp : Nat
  location : Option String
  latitude : Option Rat
  longitude : Option Rat
  severity : String
  trash_count : Nat
  categories : List String
  notes : Option String
  image_path : Option String
  cleaned : Bool
deriving DecidableEq

/-- SQLite's default `LIKE` folds the 26 ASCII upper-case letters to lower
case before comparing; all other characters (including non-ASCII) compare
verbatim. -/
def lowerAscii (c : Char) : Char :=
  if 65 ≤ c.toNat ∧ c.toNat ≤ 90 then Char.ofNat (c.toNat + 32) else c

/-- `likeSuffix f s` is the disjunction of `f` over every suffix of `s`
(including `s` itself and `[]`): the search a `%` wildcard performs. -/
def likeSuffix (f : List Char → Bool) : List Char → Bool
  | [] => f []
  | c :: t => f (c :: t) || likeSuffix f t

/-- SQLite `LIKE` (no ESCAPE clause, default `case_sensitive_like` off):
`%` matches any sequence, `_` any single character, and ordinary characters
match up to ASCII case folding. -/
def likeMatch : List Char → List Char → Bool
  | [], s => s.isEmpty
  | c :: ps, s =>
    if c = '%' then likeSuffix (likeMatch ps) s
    else
      match s with
      | [] => false
      | d :: t =>
        if c = '_' then likeMatch ps t
        else ((lowerAscii c).toNat == (lowerAscii d).toNat) && likeMatch ps t

/-- The `WHERE` clause built by `query_events` (history_tool.py lines
140-163), applied to one row.  Python truthiness gates every filter: `None`,
`0` and `""` all skip their condition.  The location filter is
`location LIKE '%' || ? || '%'`; a row whose `location` is SQL `NULL`
fails that condition. -/
def eventMatches (now : Nat) (days : Option Nat) (location : Option String)
    (severity : Option String) (minTrashCount : Option Nat) (cleanedOnly : Bool)
    (e : Event) : Bool :=
  (match days with
   | none => true
   | some d => if d = 0 then true else decide (now - d ≤ e.timestamp)) &&
  (match location with
   | none => true
   | some l =>
     if l = "" then true
     else
       match e.location with
       | none => false
       | some s => likeMatch ('%' :: (l.data ++ ['%'])) s.data) &&
  (match severity with
   | none => true
   | some sv => if sv = "" then true else e.severity == sv) &&
  (match minTrashCount with
   | none => true
   | some m => if m = 0 then true else decide (m ≤ e.trash_count)) &&
  (!cleanedOnly || e.cleaned)

/-- The `aggregate_summary` row computed by `query_events` (history_tool.py
lines 185-195) over the full filtered set.  SQL `SUM`/`AVG` of an empty set
are `NULL`; `COUNT(DISTINCT location)` ignores `NULL` locations. -/
structure QuerySummary where
  total_events : Nat
  total_trash_items : Option Nat
  avg_trash_per_event : Option Rat
  unique_locations : Nat
deriving DecidableEq

/-- Builds the `aggregate_summary` for a filtered row set. -/
def mkSummary (rows : List Event) : QuerySummary where
  total_events := rows.length
  total_trash_items :=
    if rows.isEmpty then none else some ((rows.map Event.trash_count).sum)
  avg_trash_per_event :=
    if rows.isEmpty then none
    else some (mkRat ((rows.map Event.trash_count).sum : Int) rows.length)
  unique_locations := ((rows.filterMap Event.location).dedup).length

/-- The sort order `ORDER BY timestamp DESC` of `query_events`. -/
def timestampDesc (a b : Event) : Prop :=
  b.timestamp ≤ a.timestamp

instance : DecidableRel timestampDesc := fun a b =>
  inferInstanceAs (Decidable (b.timestamp ≤ a.timestamp))

/-- The dictionary returned by `query_events` (history_tool.py lines
199-209); `filters_applied` merely echoes the arguments and is omitted. -/
structure QueryResult where
  events : List Event
  total_count : Nat
  summary : QuerySummary
deriving DecidableEq

/-- `query_events` (history_tool.py lines 112-209): filter, order by
timestamp descending, cap at `limit`; the summary is computed over the full
filtered set (the `LIMIT` parameter is excluded from the summary query).
`total_count` is `len(events)`, the page size. -/
def queryEvents (store : List Event) (now : Nat) (days : Option Nat)
    (location : Option String) (severity : Option String)
    (minTrashCount : Option Nat) (cleanedOnly : Bool) (limit : Nat) : QueryResult :=
  let filtered := store.filter (eventMatches now days location severity minTrashCount cleanedOnly)
  let page := (List.insertionSort timestampDesc filtered).take limit
  { events := page
    total_count := page.length
    summary := mkSummary filtered }

/-- `mark_cleaned` (history_tool.py lines 263-270):
`UPDATE events SET cleaned = 1 WHERE id = ?` followed by an unconditional
success message — the function never checks whether any row matched. -/
def markCleaned (store : List Event) (eventId : Nat) : List Event × String :=
  (store.map (fun e => if e.id = eventId then { e with cleaned := true } else e),
   "Event " ++ toString eventId ++ " marked as cleaned")

/-- One row of the `get_hotspots` result (history_tool.py lines 235-248).
`severities` models `GROUP_CONCAT(DISTINCT severity)` as the list of
distinct severities of the group. -/
structure Hotspot where
  location : String
  event_count : Nat
  total_trash : Nat
  avg_trash : Rat
  last_event : Nat
  severities : List String
deriving DecidableEq

/-- The time-window condition of `get_hotspots` (history_tool.py lines
228-231), gated by Python truthiness exactly like the `days` filter of
`query_events`. -/
def hotspotWindow (now : Nat) (days : Option Nat) (e : Event) : Bool :=
  match days with
  | none => true
  | some d => if d = 0 then true else decide (now - d ≤ e.timestamp)

/-- The aggregate row `GROUP BY location` produces for location `l` out of
the in-scope rows. -/
def hotspotGroup (rows : List Event) (l : String) : Hotspot :=
  let g := rows.filter (fun e => e.location == some l)
  { location := l
    event_count := g.length
    total_trash := (g.map Event.trash_count).sum
    avg_trash := mkRat ((g.map Event.trash_count).sum : Int) g.length
    last_event := (g.map Event.timestamp).foldr max 0
    severities := (g.map Event.severity).dedup }

/-- The sort order `ORDER BY event_count DESC, total_trash DESC`. -/
def hotspotOrder (a b : Hotspot) : Prop :=
  b.event_count < a.event_count ∨
    (a.event_count = b.event_count ∧ b.total_trash ≤ a.total_trash)

instance : DecidableRel hotspotOrder := fun a b =>
  inferInstanceAs (Decidable (b.event_count < a.event_count ∨
    (a.event_count = b.event_count ∧ b.total_trash ≤ a.total_trash)))

/-- `get_hotspots` (history_tool.py lines 212-260): restrict to rows with
non-`NULL` location inside the window, group by exact location string, keep
groups with at least `min_events` rows (`HAVING event_count >= ?`), order by
event count then total trash, both descending. -/
def getHotspots (store : List Event) (minEvents : Nat) (days : Option Nat)
    (now : Nat) : List Hotspot :=
  let inScope := store.filter (fun e => e.location.isSome && hotspotWindow now days e)
  let locations := (inScope.filterMap Event.location).dedup
  let groups := locations.map (hotspotGroup inScope)
  let kept := groups.filter (fun g => minEvents ≤ g.event_count)
  List.insertionSort hotspotOrder kept

/-!
### Report renderer lemmas and theorems
-/

theorem charListLe_total : ∀ x y : List Char, charListLe x y = true ∨ charListLe y x = true := by
  intro x
  induction x with
  | nil => intro y; left; rfl
  | cons a as ih =>
    intro y
    cases y with
    | nil => right; rfl
    | cons b bs =>
      simp only [charListLe]
      rcases Nat.lt_trichotomy a.toNat b.toNat with hab | hab | hab
      · left; simp [hab]
      · rcases ih bs with h | h
        · left; simp [hab, Nat.lt_irrefl, h]
        · right; simp [hab.symm, Nat.lt_irrefl, h]
      · right; simp [hab, Nat.lt_asymm hab]
  
theorem charListLe_trans : ∀ x y z : List Char,
    charListLe x y = true → charListLe y z = true → charListLe x z = true := by
  intro x
  induction x with
  | nil => intro y z _ _; rfl
  | cons a as ih =>
    intro y z hxy hyz
    match y, z with
    | [], _ => simp [charListLe] at hxy
    | b :: bs, [] => simp [charListLe] at hyz
    | b :: bs, c :: cs =>
      simp only [charListLe] at hxy hyz ⊢
      split_ifs at hxy hyz ⊢ <;>
        first
          | rfl
          | omega
          | exact ih bs cs hxy hyz

end CleanCity

namespace CleanCity

def lookupCount (acc : List (String × Nat)) (l : String) : Nat :=
  match acc.find? (fun p => p.1 == l) with
  | some p => p.2
  | none => 0

theorem insertCount_keys (acc : List (String × Nat)) (l : String) :
    (insertCount acc l).map Prod.fst =
      if l ∈ acc.map Prod.fst then acc.map Prod.fst else acc.map Prod.fst ++ [l] := by
  induction acc with
  | nil => simp [insertCount]
  | cons p rest ih =>
    obtain ⟨k, n⟩ := p
    by_cases hk : k = l
    · subst hk
      simp [insertCount]
    · simp only [insertCount, if_neg hk, List.map_cons]
      rw [ih]
      by_cases hm : l ∈ rest.map Prod.fst
      · simp [hm, Ne.symm hk]
      · simp [hm, Ne.symm hk]

theorem lookupCount_insertCount (acc : List (String × Nat)) (l l' : String) :
    lookupCount (insertCount acc l) l' =
      if l' = l then lookupCount acc l' + 1 else lookupCount acc l' := by
  induction acc with
  | nil =>
    by_cases h : l' = l
    · subst h
      simp [insertCount, lookupCount, List.find?, beq_self_eq_true]
    · have hb : (l == l') = false := beq_eq_false_iff_ne.mpr (fun hh => h hh.symm)
      simp [insertCount, lookupCount, List.find?, hb, h]
  | cons p rest ih =>
    obtain ⟨k, n⟩ := p
    by_cases hk : k = l
    · subst hk
      by_cases h : l' = k
      · subst h
        simp [insertCount, lookupCount, List.find?, beq_self_eq_true]
      · have hb : (k == l') = false := beq_eq_false_iff_ne.mpr (fun hh => h hh.symm)
        simp [insertCount, lookupCount, List.find?, hb, h]
    · by_cases h : l' = k
      · have hne : ¬ l' = l := fun hh => hk (h.symm.trans hh)
        have hb : (k == l') = true := beq_iff_eq.mpr h.symm
        simp [insertCount, if_neg hk, lookupCount, List.find?, hb, hne]
      · have hb : (k == l') = false := beq_eq_false_iff_ne.mpr (fun hh => h hh.symm)
        simp only [insertCount, if_neg hk, lookupCount, List.find?, hb]
        exact ih

theorem foldl_insertCount_lookup (ds : List Detection) :
    ∀ (acc : List (String × Nat)) (l : String),
      lookupCount (ds.foldl (fun a d => insertCount a d.label) acc) l =
        lookupCount acc l + ds.countP (fun d => d.label == l) := by
  induction ds with
  | nil => intro acc l; simp [lookupCount]
  | cons d rest ih =>
    intro acc l
    rw [List.foldl_cons, ih, lookupCount_insertCount]
    rw [List.countP_cons]
    by_cases h : d.label = l
    · simp [h, beq_iff_eq]
      omega
    · have hb : (d.label == l) = false := beq_eq_false_iff_ne.mpr h
      have hne : ¬ l = d.label := fun hh => h hh.symm
      simp [hne, hb]

theorem foldl_insertCount_keys_mem (ds : List Detection) :
    ∀ (acc : List (String × Nat)) (l : String),
      l ∈ (ds.foldl (fun a d => insertCount a d.label) acc).map Prod.fst ↔
        l ∈ acc.map Prod.fst ∨ l ∈ ds.map Detection.label := by
  induction ds with
  | nil => intro acc l; simp
  | cons d rest ih =>
    intro acc l
    rw [List.foldl_cons, ih]
    rw [insertCount_keys]
    by_cases h : d.label ∈ acc.map Prod.fst
    · simp only [if_pos h, List.map_cons, List.mem_cons]
      constructor
      · rintro (ha | hr)
        · exact Or.inl ha
        · exact Or.inr (Or.inr hr)
      · rintro (ha | heq | hr)
        · exact Or.inl ha
        · exact Or.inl (heq ▸ h)
        · exact Or.inr hr
    · simp only [if_neg h, List.map_cons, List.mem_cons, List.mem_append,
        List.mem_singleton]
      tauto

theorem foldl_insertCount_keys_nodup (ds : List Detection) :
    ∀ acc : List (String × Nat), (acc.map Prod.fst).Nodup →
      ((ds.foldl (fun a d => insertCount a d.label) acc).map Prod.fst).Nodup := by
  induction ds with
  | nil => intro acc h; simpa using h
  | cons d rest ih =>
    intro acc h
    rw [List.foldl_cons]
    apply ih
    rw [insertCount_keys]
    by_cases hm : d.label ∈ acc.map Prod.fst
    · simpa [hm] using h
    · simp only [if_neg hm]
      exact List.Nodup.append h (List.nodup_singleton _) (by simpa using hm)

theorem lookup_mem (acc : List (String × Nat)) (l : String)
    (h : l ∈ acc.map Prod.fst) : (l, lookupCount acc l) ∈ acc := by
  induction acc with
  | nil => simp at h
  | cons p rest ih =>
    obtain ⟨k, m⟩ := p
    by_cases hlk : l = k
    · subst hlk
      simp [lookupCount, List.find?, beq_self_eq_true]
    · have hb : (k == l) = false := beq_eq_false_iff_ne.mpr (fun hh => hlk hh.symm)
      have hr : l ∈ rest.map Prod.fst := by
        have h' : l ∈ k :: rest.map Prod.fst := by simpa only [List.map_cons] using h
        rcases List.mem_cons.mp h' with hh | hh
        · exact absurd hh hlk
        · exact hh
      simp only [lookupCount, List.find?, hb]
      exact List.mem_cons_of_mem _ (ih hr)

theorem mem_lookup_eq (acc : List (String × Nat)) (hnd : (acc.map Prod.fst).Nodup)
    (l : String) (n : Nat) (h : (l, n) ∈ acc) : lookupCount acc l = n := by
  induction acc with
  | nil => simp at h
  | cons p rest ih =>
    obtain ⟨k, m⟩ := p
    simp only [List.map_cons, List.nodup_cons] at hnd
    rcases List.mem_cons.mp h with heq | hmem
    · rw [show l = k from congrArg Prod.fst heq, show n = m from congrArg Prod.snd heq]
      simp [lookupCount, List.find?, beq_self_eq_true]
    · have hlk : ¬ l = k := by
        intro hh
        subst hh
        exact hnd.1 (List.mem_map.mpr ⟨(l, n), hmem, rfl⟩)
      have hb : (k == l) = false := beq_eq_false_iff_ne.mpr (fun hh => hlk hh.symm)
      simp only [lookupCount, List.find?, hb]
      exact ih hnd.2 hmem

theorem categoryCounts_keys_nodup (ds : List Detection) :
    ((categoryCounts ds).map Prod.fst).Nodup :=
  foldl_insertCount_keys_nodup ds [] (by simp)

def labelCount (ds : List Detection) (l : String) : Nat :=
  ds.countP (fun d => d.label == l)

theorem mem_categoryCounts (ds : List Detection) (l : String) (n : Nat) :
    (l, n) ∈ categoryCounts ds ↔
      l ∈ ds.map Detection.label ∧ n = labelCount ds l := by
  have hlook : lookupCount (categoryCounts ds) l = labelCount ds l := by
    have := foldl_insertCount_lookup ds [] l
    simpa [categoryCounts, lookupCount, labelCount] using this
  constructor
  · intro h
    have hk : l ∈ (categoryCounts ds).map Prod.fst := List.mem_map.mpr ⟨(l, n), h, rfl⟩
    have hn := mem_lookup_eq _ (categoryCounts_keys_nodup ds) l n h
    have hmem := (foldl_insertCount_keys_mem ds [] l).mp hk
    refine ⟨hmem.resolve_left (by simp), ?_⟩
    omega
  · rintro ⟨hl, rfl⟩
    have hk : l ∈ (categoryCounts ds).map Prod.fst :=
      (foldl_insertCount_keys_mem ds [] l).mpr (Or.inr hl)
    have := lookup_mem _ l hk
    rwa [hlook] at this

instance : IsTrans (String × Nat) labelAlphaLe :=
  ⟨fun a b c => charListLe_trans a.1.data b.1.data c.1.data⟩

instance : IsTotal (String × Nat) labelAlphaLe :=
  ⟨fun a b => charListLe_total a.1.data b.1.data⟩

instance : IsTrans (String × Nat) byCountDesc :=
  ⟨fun _ _ _ h1 h2 => Nat.le_trans h2 h1⟩

instance : IsTotal (String × Nat) byCountDesc :=
  ⟨fun a b => Nat.le_total b.2 a.2⟩

/-- C9 (amended): all three renderers group detections by label and count
per label via the same grouping step (each breakdown is a permutation of
the shared `category_counts` association list); the breakdown is sorted by
count descending in the markdown (structured) renderer and alphabetically
by label in the email AND plain renderers; and every distinct label's item
count appears in each style's breakdown. -/
theorem claim_report_grouping (ds : List Detection) :
    List.Perm (emailBreakdown ds) (categoryCounts ds) ∧
    List.Perm (markdownBreakdown ds) (categoryCounts ds) ∧
    List.Perm (plainBreakdown ds) (categoryCounts ds) ∧
    (emailBreakdown ds).Pairwise labelAlphaLe ∧
    (plainBreakdown ds).Pairwise labelAlphaLe ∧
    (markdownBreakdown ds).Pairwise byCountDesc ∧
    ∀ l, l ∈ ds.map Detection.label →
      ((l, labelCount ds l) ∈ emailBreakdown ds ∧
       (l, labelCount ds l) ∈ markdownBreakdown ds ∧
       (l, labelCount ds l) ∈ plainBreakdown ds) := by
  refine ⟨List.perm_insertionSort _ _, List.perm_insertionSort _ _,
    List.perm_insertionSort _ _,
    List.sorted_insertionSort _ _, List.sorted_insertionSort _ _,
    List.sorted_insertionSort _ _, ?_⟩
  intro l hl
  have hm : (l, labelCount ds l) ∈ categoryCounts ds :=
    (mem_categoryCounts ds l _).mpr ⟨hl, rfl⟩
  exact ⟨(List.mem_insertionSort _).mpr hm, (List.mem_insertionSort _).mpr hm,
    (List.mem_insertionSort _).mpr hm⟩

/-- C9 counterexample: the plain renderer sorts its breakdown with
`sorted(category_counts.items())` — alphabetically — not by count
descending: with one "bottle" and two "can" detections the plain breakdown
lists the count-1 entry before the count-2 entry. -/
theorem claim_report_grouping_cex :
    plainBreakdown [mkDet "bottle", mkDet "can", mkDet "can"] = [("bottle", 1), ("can", 2)] ∧
    ¬ (plainBreakdown [mkDet "bottle", mkDet "can", mkDet "can"]).Pairwise byCountDesc := by
  decide

/-- Witness: the report-grouping theorem's per-label clause at a concrete
detection list. -/
theorem claim_report_grouping_witness :
    "can" ∈ ([mkDet "bottle", mkDet "can", mkDet "can"].map Detection.label) ∧
    (("can", labelCount [mkDet "bottle", mkDet "can", mkDet "can"] "can")
        ∈ emailBreakdown [mkDet "bottle", mkDet "can", mkDet "can"] ∧
     ("can", labelCount [mkDet "bottle", mkDet "can", mkDet "can"] "can")
        ∈ markdownBreakdown [mkDet "bottle", mkDet "can", mkDet "can"] ∧
     ("can", labelCount [mkDet "bottle", mkDet "can", mkDet "can"] "can")
        ∈ plainBreakdown [mkDet "bottle", mkDet "can", mkDet "can"]) :=
  ⟨by decide, (claim_report_grouping [mkDet "bottle", mkDet "can", mkDet "can"]).2.2.2.2.2.2
    "can" (by decide)⟩

/-!
### Planner theorems
-/

/-- Membership in the distinct-label list is having a detection with that
label. -/
theorem mem_categoriesOf {l : String} {ds : List Detection} :
    l ∈ categoriesOf ds ↔ ∃ d ∈ ds, d.label = l := by
  simp [categoriesOf, List.mem_dedup, List.mem_map]

/-- The severity table of §4.1, first match wins, stated against
`planCleanup`: `N` is the number of detections, `C` the number of distinct
labels. -/
def planMatchesSeverityRules (ds : List Detection) : Prop :=
  let N := ds.length
  let C := (ds.map Detection.label).dedup.length
  let p := planCleanup ds
  (15 ≤ N ∨ 6 ≤ C →
    p.severity = .high ∧ p.urgency_days = 1 ∧
    p.recommended_volunteers = 4 + N / 10 ∧ p.estimated_time_minutes = 90 + 3 * N) ∧
  (¬(15 ≤ N ∨ 6 ≤ C) → (7 ≤ N ∨ 4 ≤ C) →
    p.severity = .medium ∧ p.urgency_days = 3 ∧
    p.recommended_volunteers = 2 + N / 8 ∧ p.estimated_time_minutes = 45 + 2 * N) ∧
  (¬(15 ≤ N ∨ 6 ≤ C) → ¬(7 ≤ N ∨ 4 ≤ C) →
    p.severity = .low ∧ p.urgency_days = 7 ∧
    p.recommended_volunteers = 1 + N / 5 ∧ p.estimated_time_minutes = 20 + 2 * N)

/-- C1: for every non-empty detection list the planner classifies by the
first matching rule in priority order — `N ≥ 15 ∨ C ≥ 6` gives high with
urgency 1, `4 + ⌊N/10⌋` volunteers and `90 + 3N` minutes; otherwise
`N ≥ 7 ∨ C ≥ 4` gives medium with urgency 3, `2 + ⌊N/8⌋` volunteers and
`45 + 2N` minutes; otherwise low with urgency 7, `1 + ⌊N/5⌋` volunteers and
`20 + 2N` minutes.  In particular 15 detections of one label give high, 14
detections of 6 distinct labels give high, 7 of one label give medium and
6 of one label give low. -/
theorem claim_severity_classification :
    (∀ ds : List Detection, ds ≠ [] → planMatchesSeverityRules ds) ∧
    (planCleanup (replicateDets 15 "plastic_bottle")).severity = .high ∧
    (planCleanup (replicateDets 9 "plastic_bottle" ++
      [mkDet "can", mkDet "cup", mkDet "straw", mkDet "bag", mkDet "wrapper"])).severity
      = .high ∧
    (planCleanup (replicateDets 7 "plastic_bottle")).severity = .medium ∧
    (planCleanup (replicateDets 6 "plastic_bottle")).severity = .low := by
  refine ⟨?_, by decide, by decide, by decide, by decide⟩
  intro ds h
  have hE : ds.isEmpty = false := List.isEmpty_eq_false.mpr h
  unfold planMatchesSeverityRules planCleanup
  simp only [hE, Bool.false_eq_true, if_false, categoriesOf]
  split_ifs with h1 h2
  · exact ⟨fun _ => ⟨rfl, rfl, rfl, by simp [Nat.mul_comm]⟩,
      fun hn _ => absurd h1 hn, fun hn _ => absurd h1 hn⟩
  · exact ⟨fun hc => absurd hc h1,
      fun _ _ => ⟨rfl, rfl, rfl, by simp [Nat.mul_comm]⟩,
      fun _ hn => absurd h2 hn⟩
  · exact ⟨fun hc => absurd hc h1, fun _ hc => absurd hc h2,
      fun _ _ => ⟨rfl, rfl, rfl, by simp [Nat.mul_comm]⟩⟩

/-- Witness: the severity rules instantiated at 15 detections of one
label. -/
theorem claim_severity_classification_witness :
    replicateDets 15 "plastic_bottle" ≠ [] ∧
    planMatchesSeverityRules (replicateDets 15 "plastic_bottle") :=
  ⟨by decide, claim_severity_classification.1 _ (by decide)⟩

/-- The equipment rules of §4.1 stated against `planCleanup`: the fixed
three-item start, the glass rule, the `N > 10` bin rule, no duplicates,
rule-evaluation order. -/
def equipmentSpec (ds : List Detection) : Prop :=
  (planCleanup ds).equipment_needed =
    ["Heavy-duty trash bags", "Gloves", "Grabber tools"]
      ++ (if ∃ d ∈ ds, d.label = "glass_bottle" then
            ["Safety goggles", "Puncture-resistant bags"] else [])
      ++ (if 10 < ds.length then ["Wheeled collection bin"] else []) ∧
  ((planCleanup ds).equipment_needed.take 3 =
    ["Heavy-duty trash bags", "Gloves", "Grabber tools"]) ∧
  (("Safety goggles" ∈ (planCleanup ds).equipment_needed ∧
    "Puncture-resistant bags" ∈ (planCleanup ds).equipment_needed)
    ↔ ∃ d ∈ ds, d.label = "glass_bottle") ∧
  ("Wheeled collection bin" ∈ (planCleanup ds).equipment_needed ↔ 10 < ds.length) ∧
  (planCleanup ds).equipment_needed.Nodup

/-- C2 counterexample: the claim quantifies over every detection list, but
for the empty list the early return yields an empty equipment list, which
does not start with the three fixed items. -/
theorem claim_equipment_rules_cex :
    (planCleanup []).equipment_needed = [] ∧
    (planCleanup []).equipment_needed.take 3 ≠
      ["Heavy-duty trash bags", "Gloves", "Grabber tools"] := by
  decide

/-- C2 (amended to non-empty detection lists): the equipment list starts
with the three fixed items in order, contains the two glass items iff some
detection is labelled `glass_bottle`, contains the wheeled bin iff
`N > 10`, has no duplicates, and is exactly the concatenation in rule
evaluation order. -/
theorem claim_equipment_rules (ds : List Detection) (h : ds ≠ []) : equipmentSpec ds := by
  have hE : ds.isEmpty = false := List.isEmpty_eq_false.mpr h
  have hglass : ("glass_bottle" ∈ categoriesOf ds) ↔ ∃ d ∈ ds, d.label = "glass_bottle" :=
    mem_categoriesOf
  have heq : (planCleanup ds).equipment_needed =
      ["Heavy-duty trash bags", "Gloves", "Grabber tools"]
        ++ (if ∃ d ∈ ds, d.label = "glass_bottle" then
              ["Safety goggles", "Puncture-resistant bags"] else [])
        ++ (if 10 < ds.length then ["Wheeled collection bin"] else []) := by
    unfold planCleanup
    simp only [hE, Bool.false_eq_true, if_false]
    by_cases hg : "glass_bottle" ∈ categoriesOf ds
    · by_cases hc : 10 < ds.length
      · simp [hg, hc, hglass.mp hg]
      · simp [hg, hc, hglass.mp hg]
    · have hg' : ¬ ∃ d ∈ ds, d.label = "glass_bottle" := fun hx => hg (hglass.mpr hx)
      by_cases hc : 10 < ds.length
      · simp [hg, hc, hg']
      · simp [hg, hc, hg']
  unfold equipmentSpec
  rw [heq]
  refine ⟨rfl, ?_, ?_, ?_, ?_⟩
  · by_cases hg : ∃ d ∈ ds, d.label = "glass_bottle" <;>
      by_cases hc : 10 < ds.length <;> simp [hg, hc]
  · by_cases hg : ∃ d ∈ ds, d.label = "glass_bottle" <;>
      by_cases hc : 10 < ds.length <;> simp [hg, hc]
  · by_cases hg : ∃ d ∈ ds, d.label = "glass_bottle" <;>
      by_cases hc : 10 < ds.length <;> simp [hg, hc]
  · by_cases hg : ∃ d ∈ ds, d.label = "glass_bottle" <;>
      by_cases hc : 10 < ds.length <;> simp [hg, hc]

/-- Witness: the equipment rules at 11 glass bottles and one can (both the
glass rule and the bin rule fire). -/
theorem claim_equipment_rules_witness :
    replicateDets 11 "glass_bottle" ++ [mkDet "can"] ≠ [] ∧
    equipmentSpec (replicateDets 11 "glass_bottle" ++ [mkDet "can"]) :=
  ⟨by decide, claim_equipment_rules _ (by decide)⟩

/-- C3 counterexample: the empty-list plan carries the dedicated
"No trash detected" text, not the canned low-severity text the claim
names. -/
theorem claim_zero_plan_cex :
    (planCleanup []).severity = .low ∧
    (planCleanup []).environmental_impact ≠ impactDescriptions Severity.low := by
  decide

/-- C3 (amended): the empty detection list yields the canonical zero-plan
(severity low, zero volunteers, zero minutes, empty equipment, zero urgency
days) whose `environmental_impact` is the dedicated
"No trash detected - area appears clean." text; for every non-empty list
`environmental_impact` is the canned text keyed by the plan's severity. -/
theorem claim_zero_plan :
    (planCleanup []).severity = .low ∧
    (planCleanup []).recommended_volunteers = 0 ∧
    (planCleanup []).estimated_time_minutes = 0 ∧
    (planCleanup []).equipment_needed = [] ∧
    (planCleanup []).urgency_days = 0 ∧
    (planCleanup []).environmental_impact = "No trash detected - area appears clean." ∧
    ∀ ds : List Detection, ds ≠ [] →
      (planCleanup ds).environmental_impact = impactDescriptions (planCleanup ds).severity := by
  refine ⟨rfl, rfl, rfl, rfl, rfl, rfl, ?_⟩
  intro ds h
  have hE : ds.isEmpty = false := List.isEmpty_eq_false.mpr h
  unfold planCleanup
  rw [hE]
  simp only [Bool.false_eq_true, if_false]

/-- Witness: the zero-plan theorem's canned-text clause at three cans. -/
theorem claim_zero_plan_witness :
    replicateDets 3 "can" ≠ [] ∧
    (planCleanup (replicateDets 3 "can")).environmental_impact =
      impactDescriptions (planCleanup (replicateDets 3 "can")).severity :=
  ⟨by decide, claim_zero_plan.2.2.2.2.2.2 _ (by decide)⟩

/-- The deterministic template is never the empty string. -/
theorem generateActionSummary_ne_empty (sev : Severity) (v t c : Nat) (cats : List String) :
    generateActionSummary sev v t c cats ≠ "" := by
  unfold generateActionSummary
  intro h
  have hlen := congrArg String.length h
  simp only [String.length_append] at hlen
  have h17 : String.length "**Cleanup Plan - " = 17 := rfl
  have h0 : String.length "" = 0 := rfl
  rw [h17, h0] at hlen
  omega

/-- C8: when enhancement is requested and the external generator call fails
(any raised exception, of any error type), `plan_cleanup` returns exactly
the unenhanced plan — severity, volunteers, time, equipment, urgency and
environmental impact untouched — and its `action_summary` is the non-empty
deterministic template. -/
theorem claim_enhancement_fallback {ε : Type} (detections : List Detection)
    (geminiApiKey : Option String) (err : ε) :
    planCleanupLLM detections true geminiApiKey (Except.error err) = planCleanup detections ∧
    (planCleanupLLM detections true geminiApiKey (Except.error err)).action_summary ≠ "" := by
  have henh : ∀ p : Plan, enhanceWithLLM p geminiApiKey (Except.error err : Except ε String) =
      p.action_summary := by
    intro p
    unfold enhanceWithLLM
    cases geminiApiKey <;> rfl
  cases hE : detections.isEmpty
  · have heq : planCleanupLLM detections true geminiApiKey (Except.error err : Except ε String) =
        planCleanup detections := by
      unfold planCleanupLLM
      rw [hE]
      simp only [Bool.false_eq_true, if_false, if_true, henh]
    refine ⟨heq, ?_⟩
    rw [heq]
    unfold planCleanup
    rw [hE]
    simp only [Bool.false_eq_true, if_false]
    exact generateActionSummary_ne_empty _ _ _ _ _
  · have hnil : detections = [] := List.isEmpty_iff.mp hE
    subst hnil
    refine ⟨rfl, ?_⟩
    have hs : (planCleanupLLM ([] : List Detection) true geminiApiKey
        (Except.error err : Except ε String)).action_summary =
        "No cleanup action needed at this time." := rfl
    rw [hs]
    decide

/-!
### Event store theorems
-/

/-- C10: `query_events` treats `days=0` and `min_trash_count=0` exactly as
an absent filter (Python truthiness), so `days=0` returns events from all
time rather than none. -/
theorem claim_zero_filters_ignored (store : List Event) (now : Nat) (days : Option Nat)
    (location severity : Option String) (minTrashCount : Option Nat)
    (cleanedOnly : Bool) (limit : Nat) :
    queryEvents store now (some 0) location severity minTrashCount cleanedOnly limit =
      queryEvents store now none location severity minTrashCount cleanedOnly limit ∧
    queryEvents store now days location severity (some 0) cleanedOnly limit =
      queryEvents store now days location severity none cleanedOnly limit := by
  have h1 : eventMatches now (some 0) location severity minTrashCount cleanedOnly =
      eventMatches now none location severity minTrashCount cleanedOnly := by
    funext e
    simp [eventMatches]
  have h2 : eventMatches now days location severity (some 0) cleanedOnly =
      eventMatches now days location severity none cleanedOnly := by
    funext e
    simp [eventMatches]
  constructor
  · simp only [queryEvents, h1]
  · simp only [queryEvents, h2]

instance : IsTrans Event timestampDesc :=
  ⟨fun _ _ _ h1 h2 => Nat.le_trans h2 h1⟩

instance : IsTotal Event timestampDesc :=
  ⟨fun a b => Nat.le_total b.timestamp a.timestamp⟩

/-- The C4 pagination/aggregation contract of `query_events`, stated for
one combination of store and filters. -/
def querySpec (store : List Event) (now : Nat) (days : Option Nat)
    (location severity : Option String) (minTrashCount : Option Nat)
    (cleanedOnly : Bool) (limit : Nat) : Prop :=
  (queryEvents store now days location severity minTrashCount cleanedOnly limit).events.Pairwise
    timestampDesc ∧
  (queryEvents store now days location severity minTrashCount cleanedOnly limit).events.length =
    min limit (store.countP (eventMatches now days location severity minTrashCount cleanedOnly)) ∧
  (∀ e ∈ (queryEvents store now days location severity minTrashCount cleanedOnly limit).events,
    e ∈ store ∧ eventMatches now days location severity minTrashCount cleanedOnly e = true) ∧
  (queryEvents store now days location severity minTrashCount cleanedOnly limit).summary.total_events
    = store.countP (eventMatches now days location severity minTrashCount cleanedOnly) ∧
  (queryEvents store now days location severity minTrashCount cleanedOnly limit).summary.total_trash_items
    = (if store.countP (eventMatches now days location severity minTrashCount cleanedOnly) = 0
       then none
       else some (((store.filter (eventMatches now days location severity minTrashCount cleanedOnly)).map
         Event.trash_count).sum)) ∧
  (queryEvents store now days location severity minTrashCount cleanedOnly limit).summary.avg_trash_per_event
    = (if store.countP (eventMatches now days location severity minTrashCount cleanedOnly) = 0
       then none
       else some (mkRat (((store.filter (eventMatches now days location severity minTrashCount cleanedOnly)).map
           Event.trash_count).sum : Int)
         (store.countP (eventMatches now days location severity minTrashCount cleanedOnly)))) ∧
  (queryEvents store now days location severity minTrashCount cleanedOnly limit).summary.unique_locations
    = (((store.filter (eventMatches now days location severity minTrashCount cleanedOnly)).filterMap
        Event.location).dedup).length ∧
  (limit < store.countP (eventMatches now days location severity minTrashCount cleanedOnly) →
    (queryEvents store now days location severity minTrashCount cleanedOnly limit).events.length
      < (queryEvents store now days location severity minTrashCount cleanedOnly limit).summary.total_events)

/-- C4: the returned events are ordered by timestamp descending and capped
to `limit` rows; the aggregate summary (total events matching the filters,
sum and average of trash_count, count of distinct locations) is computed
over the full filtered set, so when more than `limit` events match, the
summary's total still exceeds the page size. -/
theorem claim_query_pagination_summary (store : List Event) (now : Nat) (days : Option Nat)
    (location severity : Option String) (minTrashCount : Option Nat)
    (cleanedOnly : Bool) (limit : Nat) :
    querySpec store now days location severity minTrashCount cleanedOnly limit := by
  unfold querySpec queryEvents
  set P := eventMatches now days location severity minTrashCount cleanedOnly with hP
  have hsorted : (List.insertionSort timestampDesc (store.filter P)).Pairwise timestampDesc :=
    List.sorted_insertionSort timestampDesc (store.filter P)
  have hcount : store.countP P = (store.filter P).length := List.countP_eq_length_filter P store
  refine ⟨?_, ?_, ?_, ?_, ?_, ?_, ?_, ?_⟩
  · exact hsorted.sublist (List.take_sublist _ _)
  · simp [List.length_take, List.length_insertionSort, hcount]
  · intro e he
    have he' : e ∈ List.insertionSort timestampDesc (store.filter P) :=
      (List.take_sublist _ _).mem he
    have := (List.mem_insertionSort _).mp he'
    exact ⟨(List.mem_filter.mp this).1, (List.mem_filter.mp this).2⟩
  · simp [mkSummary, hcount]
  · simp only [mkSummary, hcount, List.isEmpty_iff_length_eq_zero]
  · simp only [mkSummary, hcount, List.isEmpty_iff_length_eq_zero]
  · simp [mkSummary]
  · intro hlt
    simp only [mkSummary, List.length_take, List.length_insertionSort]
    omega

/-- A concrete row for witnesses and counterexamples. -/
def sampleEvent (i t : Nat) (loc : Option String) (sev : String) (tc : Nat)
    (cl : Bool) : Event where
  id := i
  timestamp := t
  location := loc
  latitude := none
  longitude := none
  severity := sev
  trash_count := tc
  categories := []
  notes := none
  image_path := none
  cleaned := cl

/-- A concrete store: three events at "Main St", one at "Oak Ave". -/
def sampleStore : List Event :=
  [sampleEvent 1 10 (some "Main St") "low" 2 false,
   sampleEvent 2 11 (some "Main St") "low" 3 false,
   sampleEvent 3 12 (some "Main St") "medium" 4 false,
   sampleEvent 4 13 (some "Oak Ave") "low" 5 false]

/-- Witness: the pagination contract at a four-event store with `limit=2`;
the page is strictly smaller than the summary's total. -/
theorem claim_query_pagination_summary_witness :
    querySpec sampleStore 100 none none none none false 2 ∧
    2 < sampleStore.countP (eventMatches 100 none none none none false) ∧
    (queryEvents sampleStore 100 none none none none false 2).events.length <
      (queryEvents sampleStore 100 none none none none false 2).summary.total_events :=
  ⟨claim_query_pagination_summary sampleStore 100 none none none none false 2,
   by decide,
   (claim_query_pagination_summary sampleStore 100 none none none none false 2).2.2.2.2.2.2.2
     (by decide)⟩

/-- The wildcard search succeeds exactly on some suffix of the subject. -/
theorem likeSuffix_iff (f : List Char → Bool) :
    ∀ s, likeSuffix f s = true ↔ ∃ u t, s = u ++ t ∧ f t = true := by
  intro s
  induction s with
  | nil =>
    constructor
    · intro h
      exact ⟨[], [], rfl, h⟩
    · rintro ⟨u, t, hs, hf⟩
      obtain ⟨hu, ht⟩ := List.append_eq_nil.mp hs.symm
      subst hu; subst ht
      exact hf
  | cons c s' ih =>
    constructor
    · intro h
      rcases Bool.or_eq_true_iff.mp h with h1 | h2
      · exact ⟨[], c :: s', rfl, h1⟩
      · obtain ⟨u, t, hs, hf⟩ := ih.mp h2
        exact ⟨c :: u, t, by rw [List.cons_append, hs], hf⟩
    · rintro ⟨u, t, hs, hf⟩
      have hunf : likeSuffix f (c :: s') = (f (c :: s') || likeSuffix f s') := rfl
      cases u with
      | nil =>
        simp only [List.nil_append] at hs
        subst hs
        rw [hunf, hf]
        rfl
      | cons a u' =>
        rw [List.cons_append] at hs
        injection hs with h1 h2
        subst h1
        rw [hunf, ih.mpr ⟨u', t, h2, hf⟩]
        simp

/-- Two characters match under `LIKE`, as naturals, exactly when their
ASCII-case-folded forms coincide. -/
theorem lowerAscii_beq_iff (c d : Char) :
    (((lowerAscii c).toNat == (lowerAscii d).toNat) = true) ↔ lowerAscii c = lowerAscii d := by
  constructor
  · intro h
    exact Char.eq_of_val_eq (UInt32.toNat.inj (beq_iff_eq.mp h))
  · intro h
    rw [h]
    exact beq_iff_eq.mpr rfl

/-- A wildcard-free pattern followed by `%` matches exactly the subjects
that start with the pattern up to ASCII case. -/
theorem likeMatch_plain :
    ∀ (xs : List Char), (∀ c ∈ xs, c ≠ '%' ∧ c ≠ '_') → ∀ s : List Char,
      (likeMatch (xs ++ ['%']) s = true ↔
        ∃ u t, s = u ++ t ∧ u.map lowerAscii = xs.map lowerAscii) := by
  intro xs
  induction xs with
  | nil =>
    intro _ s
    constructor
    · intro _
      exact ⟨[], s, rfl, rfl⟩
    · intro _
      show likeSuffix (likeMatch []) s = true
      rw [likeSuffix_iff]
      exact ⟨s, [], by simp, rfl⟩
  | cons c cs ih =>
    intro hp s
    have hc : c ≠ '%' ∧ c ≠ '_' := hp c (List.mem_cons_self c cs)
    have hcs : ∀ x ∈ cs, x ≠ '%' ∧ x ≠ '_' := fun x hx => hp x (List.mem_cons_of_mem c hx)
    cases s with
    | nil =>
      constructor
      · intro h
        have hfalse : likeMatch ((c :: cs) ++ ['%']) [] = false := by
          show likeMatch (c :: (cs ++ ['%'])) [] = false
          simp [likeMatch, hc.1]
        rw [hfalse] at h
        exact absurd h (by simp)
      · rintro ⟨u, t, hs, hu⟩
        obtain ⟨h1, h2⟩ := List.append_eq_nil.mp hs.symm
        subst h1
        simp at hu
    | cons d t' =>
      have hstep : likeMatch ((c :: cs) ++ ['%']) (d :: t') =
          (((lowerAscii c).toNat == (lowerAscii d).toNat) && likeMatch (cs ++ ['%']) t') := by
        show likeMatch (c :: (cs ++ ['%'])) (d :: t') = _
        simp [likeMatch, hc.1, hc.2]
      rw [hstep]
      constructor
      · intro h
        simp only [Bool.and_eq_true] at h
        obtain ⟨h1, h2⟩ := h
        obtain ⟨u, t, ht', hu⟩ := (ih hcs t').mp h2
        refine ⟨d :: u, t, by rw [List.cons_append, ht'], ?_⟩
        simp only [List.map_cons]
        rw [hu, (lowerAscii_beq_iff c d).mp h1]
      · rintro ⟨u, t, hs, hu⟩
        cases u with
        | nil => simp at hu
        | cons a u' =>
          rw [List.cons_append] at hs
          injection hs with hda hrest
          subst hda
          simp only [List.map_cons, List.cons.injEq] at hu
          rw [Bool.and_eq_true]
          exact ⟨(lowerAscii_beq_iff c d).mpr hu.1.symm,
            (ih hcs t').mpr ⟨u', t, hrest, hu.2⟩⟩

/-- `pat` occurs in `s` as an ASCII-case-insensitive substring. -/
def caseInsensitiveContains (pat s : String) : Prop :=
  ∃ u v w, s.data = u ++ (v ++ w) ∧ v.map lowerAscii = pat.data.map lowerAscii

/-- `LIKE` with the pattern family `query_events` builds: matching
`'%' ++ pat ++ '%'` (for a wildcard-free `pat`) is case-insensitive
substring containment. -/
theorem likeMatch_contains (pat : List Char) (hplain : ∀ c ∈ pat, c ≠ '%' ∧ c ≠ '_')
    (s : List Char) :
    likeMatch ('%' :: (pat ++ ['%'])) s = true ↔
      ∃ u v w, s = u ++ (v ++ w) ∧ v.map lowerAscii = pat.map lowerAscii := by
  have hstep : likeMatch ('%' :: (pat ++ ['%'])) s =
      likeSuffix (likeMatch (pat ++ ['%'])) s := by
    simp [likeMatch]
  rw [hstep, likeSuffix_iff]
  constructor
  · rintro ⟨u, t, rfl, hf⟩
    obtain ⟨v, w, rfl, hv⟩ := (likeMatch_plain pat hplain t).mp hf
    exact ⟨u, v, w, rfl, hv⟩
  · rintro ⟨u, v, w, rfl, hv⟩
    exact ⟨u, v ++ w, rfl, (likeMatch_plain pat hplain (v ++ w)).mpr ⟨v, w, rfl, hv⟩⟩

/-- With only the location filter set, a row matches the WHERE clause iff
its location is non-`NULL` and contains the filter string up to ASCII
case. -/
theorem eventMatches_location_iff (now : Nat) (L : String) (hL : L ≠ "")
    (hplain : ∀ c ∈ L.data, c ≠ '%' ∧ c ≠ '_') (e : Event) :
    eventMatches now none (some L) none none false e = true ↔
      ∃ loc, e.location = some loc ∧ caseInsensitiveContains L loc := by
  cases hloc : e.location with
  | none =>
    have hred : eventMatches now none (some L) none none false e = false := by
      simp [eventMatches, hL, hloc]
    rw [hred]
    simp [hloc]
  | some s =>
    have hred : eventMatches now none (some L) none none false e =
        likeMatch ('%' :: (L.data ++ ['%'])) s.data := by
      simp [eventMatches, hL, hloc]
    rw [hred, likeMatch_contains L.data hplain s.data]
    unfold caseInsensitiveContains
    constructor
    · rintro ⟨u, v, w, h1, h2⟩
      exact ⟨s, rfl, u, v, w, h1, h2⟩
    · rintro ⟨loc, hls, u, v, w, h1, h2⟩
      injection hls with hls
      subst hls
      exact ⟨u, v, w, h1, h2⟩

/-- C5 (amended): for a non-empty wildcard-free filter string `L` and a
limit at least the store size, `query_events(location=L)` returns exactly
the events whose stored location contains `L` as an ASCII-case-INSENSITIVE
substring — an event whose location differs from `L` only in ASCII letter
case IS matched, because SQLite's default `LIKE` is case-insensitive for
ASCII. -/
theorem claim_location_filter (store : List Event) (now : Nat) (L : String) (limit : Nat)
    (hL : L ≠ "") (hplain : ∀ c ∈ L.data, c ≠ '%' ∧ c ≠ '_')
    (hlim : store.length ≤ limit) (e : Event) :
    e ∈ (queryEvents store now none (some L) none none false limit).events ↔
      e ∈ store ∧ ∃ loc, e.location = some loc ∧ caseInsensitiveContains L loc := by
  have hflen : (store.filter (eventMatches now none (some L) none none false)).length ≤ limit :=
    le_trans (List.length_filter_le _ _) hlim
  have hev : (queryEvents store now none (some L) none none false limit).events =
      List.insertionSort timestampDesc
        (store.filter (eventMatches now none (some L) none none false)) := by
    show List.take limit _ = _
    exact List.take_of_length_le (by rwa [List.length_insertionSort])
  rw [hev, List.mem_insertionSort, List.mem_filter,
    eventMatches_location_iff now L hL hplain e]

/-- The matching rule C5 asserts, following the spec words: case-SENSITIVE
substring containment — `pat` occurs verbatim (as a contiguous run) in
`s`. -/
def verbatimContains (pat s : List Char) : Bool :=
  likeSuffix (fun t => pat.isPrefixOf t) s

/-- C5 counterexample: the store holds one event at "main street"; the
filter "Main" differs from the stored text in letter case (the store
contains no verbatim occurrence of "Main"), yet the event IS returned —
refuting the claimed case-sensitive matching. -/
theorem claim_location_filter_cex :
    (queryEvents [sampleEvent 1 5 (some "main street") "low" 1 false] 0 none (some "Main")
        none none false 100).events =
      [sampleEvent 1 5 (some "main street") "low" 1 false] ∧
    verbatimContains "Main".data "main street".data = false := by
  decide

/-- Witness: the location-filter characterization instantiated at the
one-event store and the filter "Main". -/
theorem claim_location_filter_witness :
    (("Main" : String) ≠ "" ∧ (∀ c ∈ ("Main" : String).data, c ≠ '%' ∧ c ≠ '_') ∧
      ([sampleEvent 1 5 (some "main street") "low" 1 false] : List Event).length ≤ 100) ∧
    (sampleEvent 1 5 (some "main street") "low" 1 false ∈
        (queryEvents [sampleEvent 1 5 (some "main street") "low" 1 false] 0 none (some "Main")
          none none false 100).events ↔
      sampleEvent 1 5 (some "main street") "low" 1 false ∈
          [sampleEvent 1 5 (some "main street") "low" 1 false] ∧
        ∃ loc, (sampleEvent 1 5 (some "main street") "low" 1 false).location = some loc ∧
          caseInsensitiveContains "Main" loc) :=
  ⟨⟨by decide, by decide, by decide⟩,
   claim_location_filter _ 0 "Main" 100 (by decide) (by decide) (by decide) _⟩

/-- C6 counterexample: for an `event_id` that does not exist the call
leaves the store unchanged and returns exactly the same success ack it
returns when the event does exist — the code signals no not-found
condition (it never inspects the number of updated rows). -/
theorem claim_mark_cleaned_cex :
    (markCleaned [] 1).1 = [] ∧
    (markCleaned [] 1).2 = (markCleaned [sampleEvent 1 5 none "low" 1 false] 1).2 := by
  decide

/-- In a store with pairwise-distinct ids, exactly one row carries the id
of a member event. -/
theorem countP_id_eq_one (eid : Nat) :
    ∀ (store : List Event), (store.map Event.id).Nodup →
      ∀ e, e ∈ store → e.id = eid → store.countP (fun x => x.id == eid) = 1 := by
  intro store
  induction store with
  | nil => intro _ e he; exact absurd he (List.not_mem_nil e)
  | cons a rest ih =>
    intro hnd e he hid
    simp only [List.map_cons, List.nodup_cons] at hnd
    rw [List.countP_cons]
    rcases List.mem_cons.mp he with rfl | hmem
    · have hz : rest.countP (fun x => x.id == eid) = 0 := by
        rw [List.countP_eq_zero]
        intro x hx
        have : x.id ≠ eid := fun hh => hnd.1 (hid ▸ hh ▸ List.mem_map.mpr ⟨x, hx, rfl⟩)
        simp [this]
      simp [hz, hid]
    · have ha : a.id ≠ eid := by
        intro hh
        exact hnd.1 (hh ▸ hid ▸ List.mem_map.mpr ⟨e, hmem, rfl⟩)
      have := ih hnd.2 e hmem hid
      simp [this, ha]

/-- C6 (amended): `mark_cleaned` sets the event's `cleaned` flag to true;
calling it a second time is a no-op returning the identical success ack
(idempotent); and `query_events(cleaned_only=true)` afterwards includes the
event exactly once.  (No not-found condition exists: the update is an
unconditional SQL `UPDATE` plus a success message, see the
counterexample.) -/
theorem claim_mark_cleaned (store : List Event) (eid : Nat) (e : Event) (now limit : Nat)
    (hids : (store.map Event.id).Nodup) (he : e ∈ store) (hid : e.id = eid)
    (hlim : store.length ≤ limit) :
    { e with cleaned := true } ∈ (markCleaned store eid).1 ∧
    markCleaned (markCleaned store eid).1 eid = markCleaned store eid ∧
    ((queryEvents (markCleaned (markCleaned store eid).1 eid).1 now none none none none true
        limit).events.countP (fun x => x.id == eid)) = 1 := by
  have hmem : { e with cleaned := true } ∈ (markCleaned store eid).1 :=
    List.mem_map.mpr ⟨e, he, by simp [hid]⟩
  have hidem : markCleaned (markCleaned store eid).1 eid = markCleaned store eid := by
    unfold markCleaned
    refine Prod.ext ?_ rfl
    show (store.map _).map _ = store.map _
    rw [List.map_map]
    apply List.map_congr_left
    intro x _
    by_cases hx : x.id = eid
    · simp [Function.comp, hx]
    · simp [Function.comp, hx]
  refine ⟨hmem, hidem, ?_⟩
  rw [hidem]
  set store2 := (markCleaned store eid).1 with hstore2
  have hP : ∀ x : Event, eventMatches now none none none none true x = x.cleaned := by
    intro x
    simp [eventMatches]
  have hlen2 : store2.length = store.length := by
    rw [hstore2]
    exact List.length_map _ _
  have hflen : (store2.filter (eventMatches now none none none none true)).length ≤ limit :=
    le_trans (List.length_filter_le _ _) (by omega)
  have hev : (queryEvents store2 now none none none none true limit).events =
      List.insertionSort timestampDesc
        (store2.filter (eventMatches now none none none none true)) := by
    show List.take limit _ = _
    exact List.take_of_length_le (by rwa [List.length_insertionSort])
  rw [hev]
  rw [(List.perm_insertionSort timestampDesc _).countP_eq]
  rw [List.countP_filter]
  rw [hstore2]
  show (store.map _).countP _ = 1
  rw [List.countP_map]
  have hcongr : store.countP ((fun a : Event =>
        (a.id == eid) && eventMatches now none none none none true a) ∘
      (fun y : Event => if y.id = eid then { y with cleaned := true } else y)) =
      store.countP (fun x => x.id == eid) := by
    apply List.countP_congr
    intro x _
    simp only [Function.comp]
    by_cases hxx : x.id = eid
    · simp [hxx, hP]
    · simp [hxx, hP]
  rw [hcongr]
  exact countP_id_eq_one eid store hids e he hid

/-- Witness: the mark-cleaned contract at `sampleStore` and event 1. -/
theorem claim_mark_cleaned_witness :
    ((sampleStore.map Event.id).Nodup ∧
      sampleEvent 1 10 (some "Main St") "low" 2 false ∈ sampleStore ∧
      (sampleEvent 1 10 (some "Main St") "low" 2 false).id = 1 ∧
      sampleStore.length ≤ 100) ∧
    ({ sampleEvent 1 10 (some "Main St") "low" 2 false with cleaned := true } ∈
        (markCleaned sampleStore 1).1 ∧
      markCleaned (markCleaned sampleStore 1).1 1 = markCleaned sampleStore 1 ∧
      (queryEvents (markCleaned (markCleaned sampleStore 1).1 1).1 50 none none none none
          true 100).events.countP (fun x => x.id == 1) = 1) :=
  ⟨⟨by decide, by decide, by decide, by decide⟩,
   claim_mark_cleaned sampleStore 1 (sampleEvent 1 10 (some "Main St") "low" 2 false) 50 100
     (by decide) (by decide) (by decide) (by decide)⟩

/-- The C7 spec-side row predicate: exact location match inside the
window. -/
def hotMatch (now : Nat) (days : Option Nat) (l : String) (e : Event) : Bool :=
  (e.location == some l) &&
    (match days with
     | none => true
     | some d => decide (now - d ≤ e.timestamp))

instance : IsTrans Hotspot hotspotOrder := by
  refine ⟨fun a b c h1 h2 => ?_⟩
  unfold hotspotOrder at *
  omega

instance : IsTotal Hotspot hotspotOrder := by
  refine ⟨fun a b => ?_⟩
  unfold hotspotOrder
  omega

theorem le_foldr_max (l : List Nat) : ∀ x ∈ l, x ≤ l.foldr max 0 := by
  induction l with
  | nil => intro x hx; cases hx
  | cons a t ih =>
    intro x hx
    rcases List.mem_cons.mp hx with rfl | hx
    · exact Nat.le_max_left _ _
    · exact le_trans (ih x hx) (Nat.le_max_right _ _)

theorem foldr_max_mem (l : List Nat) (h : l ≠ []) : l.foldr max 0 ∈ l := by
  induction l with
  | nil => exact absurd rfl h
  | cons a t ih =>
    cases ht : t with
    | nil => simp [ht]
    | cons b t' =>
      rw [← ht]
      have hne : t ≠ [] := by simp [ht]
      show max a (t.foldr max 0) ∈ a :: t
      rcases Nat.le_total a (t.foldr max 0) with hle | hle
      · rw [Nat.max_eq_right hle]
        exact List.mem_cons_of_mem _ (ih hne)
      · rw [Nat.max_eq_left hle]
        exact List.mem_cons_self _ _

theorem inScope_filter_eq (store : List Event) (days : Option Nat) (now : Nat)
    (hdays : ∀ d, days = some d → 0 < d) (l : String) :
    (store.filter (fun e => e.location.isSome && hotspotWindow now days e)).filter
        (fun e => e.location == some l) =
      store.filter (hotMatch now days l) := by
  rw [List.filter_filter]
  apply List.filter_congr
  intro e _
  unfold hotMatch hotspotWindow
  cases hloc : e.location with
  | none => cases days <;> simp
  | some s =>
    cases hd : days with
    | none => simp [Bool.and_comm]
    | some d =>
      have hdpos : 0 < d := hdays d hd
      have hd0 : ¬ d = 0 := by omega
      simp [hd0, Bool.and_comm]

theorem mem_hotspot_locations_iff (store : List Event) (days : Option Nat) (now : Nat)
    (hdays : ∀ d, days = some d → 0 < d) (l : String) :
    l ∈ ((store.filter (fun e => e.location.isSome && hotspotWindow now days e)).filterMap
        Event.location).dedup ↔
      0 < store.countP (hotMatch now days l) := by
  rw [List.mem_dedup, List.mem_filterMap, List.countP_pos_iff]
  constructor
  · rintro ⟨e, he, hloc⟩
    have : e ∈ (store.filter (fun e => e.location.isSome && hotspotWindow now days e)).filter
        (fun e => e.location == some l) :=
      List.mem_filter.mpr ⟨he, by simp [hloc]⟩
    rw [inScope_filter_eq store days now hdays l] at this
    obtain ⟨hst, hm⟩ := List.mem_filter.mp this
    exact ⟨e, hst, hm⟩
  · rintro ⟨e, he, hm⟩
    have : e ∈ store.filter (hotMatch now days l) := List.mem_filter.mpr ⟨he, hm⟩
    rw [← inScope_filter_eq store days now hdays l] at this
    obtain ⟨hin, hloc⟩ := List.mem_filter.mp this
    exact ⟨e, hin, by simpa [beq_iff_eq] using hloc⟩

/-- The C7 contract of `get_hotspots` for one store/parameter choice:
sorted output, unique locations, per-row aggregate correctness stated
against the raw store via `hotMatch`, and completeness of group
selection. -/
def hotspotsSpec (store : List Event) (minEvents : Nat) (days : Option Nat)
    (now : Nat) : Prop :=
  (getHotspots store minEvents days now).Pairwise hotspotOrder ∧
  ((getHotspots store minEvents days now).map Hotspot.location).Nodup ∧
  (∀ h ∈ getHotspots store minEvents days now,
    minEvents ≤ h.event_count ∧
    h.event_count = store.countP (hotMatch now days h.location) ∧
    h.total_trash = ((store.filter (hotMatch now days h.location)).map Event.trash_count).sum ∧
    h.avg_trash = mkRat (h.total_trash : Int) h.event_count ∧
    (∃ e ∈ store, hotMatch now days h.location e = true ∧ e.timestamp = h.last_event) ∧
    (∀ e ∈ store, hotMatch now days h.location e = true → e.timestamp ≤ h.last_event) ∧
    h.severities.Nodup ∧
    (∀ sv, sv ∈ h.severities ↔
      ∃ e ∈ store, hotMatch now days h.location e = true ∧ e.severity = sv)) ∧
  (∀ l, minEvents ≤ store.countP (hotMatch now days l) →
    0 < store.countP (hotMatch now days l) →
    ∃ h ∈ getHotspots store minEvents days now, h.location = l)

/-- `get_hotspots` satisfies the C7 contract whenever `days` is absent or
positive (`days=0` falls back to all time by Python truthiness, like C10's
`query_events` filters). -/
theorem hotspots_spec_holds (store : List Event) (minEvents : Nat) (days : Option Nat)
    (now : Nat) (hdays : ∀ d, days = some d → 0 < d) :
    hotspotsSpec store minEvents days now := by
  have hres : getHotspots store minEvents days now =
      List.insertionSort hotspotOrder
        ((((store.filter (fun e => e.location.isSome && hotspotWindow now days e)).filterMap
            Event.location).dedup.map
          (hotspotGroup (store.filter (fun e => e.location.isSome && hotspotWindow now days e)))).filter
          (fun g => minEvents ≤ g.event_count)) := rfl
  have hgrp : ∀ l : String,
      hotspotGroup (store.filter (fun e => e.location.isSome && hotspotWindow now days e)) l =
        { location := l
          event_count := (store.filter (hotMatch now days l)).length
          total_trash := ((store.filter (hotMatch now days l)).map Event.trash_count).sum
          avg_trash := mkRat (((store.filter (hotMatch now days l)).map Event.trash_count).sum : Int)
            (store.filter (hotMatch now days l)).length
          last_event := ((store.filter (hotMatch now days l)).map Event.timestamp).foldr max 0
          severities := ((store.filter (hotMatch now days l)).map Event.severity).dedup } := by
    intro l
    unfold hotspotGroup
    rw [inScope_filter_eq store days now hdays l]
  have hcnt : ∀ l : String, store.countP (hotMatch now days l) =
      (store.filter (hotMatch now days l)).length := fun l =>
    List.countP_eq_length_filter _ _
  unfold hotspotsSpec
  refine ⟨?_, ?_, ?_, ?_⟩
  · rw [hres]
    exact List.sorted_insertionSort hotspotOrder _
  · rw [hres]
    apply ((List.perm_insertionSort hotspotOrder _).map Hotspot.location).nodup_iff.mpr
    apply List.Nodup.sublist ((List.filter_sublist _).map Hotspot.location)
    rw [List.map_map]
    have : (Hotspot.location ∘ hotspotGroup (store.filter
        (fun e => e.location.isSome && hotspotWindow now days e))) = fun l => l := by
      funext l
      rfl
    rw [this]
    simpa using List.nodup_dedup (List.filterMap Event.location
      (List.filter (fun e => e.location.isSome && hotspotWindow now days e) store))
  · intro h hmem
    rw [hres, List.mem_insertionSort] at hmem
    obtain ⟨hgroups, hge⟩ := List.mem_filter.mp hmem
    obtain ⟨l, hloc, hgl⟩ := List.mem_map.mp hgroups
    have hpos : 0 < store.countP (hotMatch now days l) :=
      (mem_hotspot_locations_iff store days now hdays l).mp hloc
    have hne : store.filter (hotMatch now days l) ≠ [] := by
      rw [← List.length_pos_iff_ne_nil, ← hcnt l]
      exact hpos
    subst hgl
    rw [hgrp l] at hge ⊢
    refine ⟨?_, (hcnt l).symm, rfl, rfl, ?_, ?_, List.nodup_dedup _, ?_⟩
    · exact of_decide_eq_true hge
    · have hmax : ((store.filter (hotMatch now days l)).map Event.timestamp).foldr max 0 ∈
          (store.filter (hotMatch now days l)).map Event.timestamp :=
        foldr_max_mem _ (by simpa using hne)
      obtain ⟨e, he, hts⟩ := List.mem_map.mp hmax
      obtain ⟨hst, hm⟩ := List.mem_filter.mp he
      exact ⟨e, hst, hm, hts⟩
    · intro e hst hm
      exact le_foldr_max _ _ (List.mem_map_of_mem Event.timestamp
        (List.mem_filter.mpr ⟨hst, hm⟩))
    · intro sv
      rw [List.mem_dedup, List.mem_map]
      constructor
      · rintro ⟨e, he, hsev⟩
        obtain ⟨hst, hm⟩ := List.mem_filter.mp he
        exact ⟨e, hst, hm, hsev⟩
      · rintro ⟨e, hst, hm, hsev⟩
        exact ⟨e, List.mem_filter.mpr ⟨hst, hm⟩, hsev⟩
  · intro l hmin hpos
    refine ⟨hotspotGroup (store.filter
        (fun e => e.location.isSome && hotspotWindow now days e)) l, ?_, by rw [hgrp l]⟩
    rw [hres, List.mem_insertionSort]
    apply List.mem_filter.mpr
    constructor
    · exact List.mem_map_of_mem _ ((mem_hotspot_locations_iff store days now hdays l).mpr hpos)
    · rw [hgrp l]
      simp only [decide_eq_true_eq]
      rw [← hcnt l]
      exact hmin

/-- C7: `hotspots(min_events, days?)` groups exactly the events with
non-null location, by exact location string, restricted to the time window
when a positive `days` is given (all time otherwise); it returns only
groups with at least `min_events` events, sorted by event count descending
with ties broken by total trash descending, each row carrying the group's
event count, total trash, average trash, last event timestamp and distinct
severities.  In the spec scenario — three events at "Main St", one at
"Oak Ave" — `hotspots(min_events=2)` returns exactly the "Main St" entry
with `event_count = 3`. -/
theorem claim_hotspots :
    (∀ (store : List Event) (minEvents : Nat) (days : Option Nat) (now : Nat),
      (∀ d, days = some d → 0 < d) → hotspotsSpec store minEvents days now) ∧
    getHotspots sampleStore 2 none 100 =
      [{ location := "Main St", event_count := 3, total_trash := 9, avg_trash := 3,
         last_event := 12, severities := ["low", "medium"] }] :=
  ⟨fun store minEvents days now hdays => hotspots_spec_holds store minEvents days now hdays,
   by decide⟩

/-- Witness: the hotspot contract instantiated at `sampleStore` with
`min_events = 2` and no time window. -/
theorem claim_hotspots_witness :
    (∀ d : Nat, (none : Option Nat) = some d → 0 < d) ∧
    hotspotsSpec sampleStore 2 none 100 :=
  ⟨fun _ h => Option.noConfusion h,
   claim_hotspots.1 sampleStore 2 none 100 (fun _ h => Option.noConfusion h)⟩

end CleanCity
